import Mathlib

/-!
Formal model of the levels-matching core of the `image-utils` repository
(`src/level.py`, `src/match.py`).

Numeric modelling choices.  Every finite IEEE double is a rational number, so
the data plumbing of the fitting pipeline (quantiles, scaling by 255, solver
call records) is modelled exactly over `ℚ`.  The tone-curve arithmetic
contains a real power `t ** gamma`, so the tone-curve model itself is
modelled over `ℝ`; the type `FP` additionally models the IEEE special values
(`±inf`, `NaN`) that numpy produces on the degenerate division inside
`level_array`.  The scipy solver `curve_fit` is external library code, so it
is modelled as an abstract function from the exact call record the source
builds (`CurveFitCall`) to either its optimum `popt` or the `RuntimeError`
it raises on non-convergence; theorems about the fitting strategies
quantify over that solver.
-/

namespace ImageUtils

/-- Model of `np.clip(a, lo, hi)` on finite values: `minimum(maximum(a, lo), hi)`. -/
noncomputable def npclip (a lo hi : ℝ) : ℝ := min (max a lo) hi

/-- Model of `level_array` from `src/level.py` under exact real semantics:
`np.clip(np.clip((array - input_black) / (input_white - input_black), 0, 1) ** gamma
* (output_white - output_black) + output_black, 0, 1)` applied to one element. -/
noncomputable def level_array (array input_black input_white output_black output_white
    gamma : ℝ) : ℝ :=
  npclip (npclip ((array - input_black) / (input_white - input_black)) 0 1 ^ gamma
    * (output_white - output_black) + output_black) 0 1

/-- An IEEE-double value as numpy computes with it: a finite value
(idealised as a real number), `inf`, `-inf`, or `nan`. -/
inductive FP
  | num (val : ℝ)
  | inf
  | ninf
  | nan

/-- numpy elementwise `array - scalar` for a finite scalar. -/
noncomputable def fsub : FP → ℝ → FP
  | .num a, c => .num (a - c)
  | .inf, _ => .inf
  | .ninf, _ => .ninf
  | .nan, _ => .nan

/-- numpy elementwise `array / scalar` for a finite scalar: division by (positive)
zero yields `±inf` for a nonzero finite numerator and `nan` for `0 / 0`.
(ℝ has a single zero, so the negative-zero divisor is not represented.) -/
noncomputable def fdiv : FP → ℝ → FP
  | .num a, c =>
      if c = 0 then (if 0 < a then .inf else if a < 0 then .ninf else .nan)
      else .num (a / c)
  | .inf, c => if c < 0 then .ninf else .inf
  | .ninf, c => if c < 0 then .inf else .ninf
  | .nan, _ => .nan

/-- Model of `np.clip(t, 0, 1)`, i.e. `np.minimum(np.maximum(t, 0), 1)`: the infinities
are clamped to the interval endpoints, while `nan` propagates through both
`np.maximum` and `np.minimum`. -/
noncomputable def fclip01 : FP → FP
  | .num a => .num (npclip a 0 1)
  | .inf => .num 1
  | .ninf => .num 0
  | .nan => .nan

section
open Classical

/-- numpy elementwise `t ** g` for a finite scalar exponent, following IEEE
`pow`: `0 ** g` is `inf`, `1`, or `0` as `g` is negative, zero, or positive;
a negative base raised to a non-integral exponent is `nan`; `nan ** 0 = 1`.
(`Real.rpow` agrees with IEEE `pow` on a nonnegative base, and on a negative
base with integral exponent by `Real.rpow_intCast`.) -/
noncomputable def fpow : FP → ℝ → FP
  | .num a, g =>
      if a = 0 then (if g < 0 then .inf else if g = 0 then .num 1 else .num 0)
      else if a < 0 then (if ∃ n : ℤ, (n : ℝ) = g then .num (a ^ g) else .nan)
      else .num (a ^ g)
  | .inf, g => if g < 0 then .num 0 else if g = 0 then .num 1 else .inf
  | .ninf, g =>
      if g < 0 then .num 0 else if g = 0 then .num 1
      else if ∃ n : ℤ, (n : ℝ) = g ∧ Odd n then .ninf else .inf
  | .nan, g => if g = 0 then .num 1 else .nan

end

/-- numpy elementwise `array * scalar` for a finite scalar: `±inf * 0 = nan`. -/
noncomputable def fmul : FP → ℝ → FP
  | .num a, c => .num (a * c)
  | .inf, c => if c = 0 then .nan else if c < 0 then .ninf else .inf
  | .ninf, c => if c = 0 then .nan else if c < 0 then .inf else .ninf
  | .nan, _ => .nan

/-- numpy elementwise `array + scalar` for a finite scalar. -/
noncomputable def fadd : FP → ℝ → FP
  | .num a, c => .num (a + c)
  | .inf, _ => .inf
  | .ninf, _ => .ninf
  | .nan, _ => .nan

/-- Model of `level_array` from `src/level.py` under numpy IEEE semantics, applied to one
element of the input array (the function is elementwise): the same expression
`np.clip(np.clip((array - input_black) / (input_white - input_black), 0, 1) ** gamma
* (output_white - output_black) + output_black, 0, 1)`, with each numpy
operation modelled on extended values. -/
noncomputable def level_array_fp (array : FP) (input_black input_white output_black
    output_white gamma : ℝ) : FP :=
  fclip01 (fadd (fmul (fpow (fclip01 (fdiv (fsub array input_black)
    (input_white - input_black))) gamma) (output_white - output_black)) output_black)

/-- The `LevelsAdjustment` named tuple from `src/level.py`: the five fitted
parameters, as the (rational) doubles the solver returns. -/
structure LevelsAdjustment where
  input_black : ℚ
  input_white : ℚ
  output_black : ℚ
  output_white : ℚ
  gamma : ℚ
  deriving DecidableEq, Repr

/-- The `popt` vector `curve_fit` returns: five parameter values. -/
abbrev Popt := ℚ × ℚ × ℚ × ℚ × ℚ

/-- Model of `LevelsAdjustment(*popt)`. -/
def adj_of_popt (p : Popt) : LevelsAdjustment :=
  ⟨p.1, p.2.1, p.2.2.1, p.2.2.2.1, p.2.2.2.2⟩

/-- A `LevelsAdjustment` named tuple used as the parameter sequence `p0`. -/
def popt_of_adj (a : LevelsAdjustment) : Popt :=
  (a.input_black, a.input_white, a.output_black, a.output_white, a.gamma)

/-- Note that `scipy.optimize.curve_fit` raises `RuntimeError` when the least-squares
solver does not converge. -/
inductive FitError
  | runtimeError
  deriving DecidableEq, Repr

/-- The `method` argument of `curve_fit`. -/
inductive FitMethod
  | lm
  | trf
  | dogbox
  deriving DecidableEq, Repr

/-- One entry of the upper-bound vector: a finite bound or `np.inf`. -/
inductive UBound
  | fin (q : ℚ)
  | inf
  deriving DecidableEq, Repr

/-- The model-function object passed to `curve_fit`; the source always
passes `level_array`. -/
inductive ModelFn
  | level_array_fn
  deriving DecidableEq, Repr

/-- Meaning of the model-function object: the real-semantics tone curve. -/
noncomputable def ModelFn.interp : ModelFn → ℝ → ℝ → ℝ → ℝ → ℝ → ℝ → ℝ
  | .level_array_fn => level_array

/-- The full argument record of a `scipy.optimize.curve_fit` call as the
source builds it (`f`, `xdata`, `ydata`, `method`, `xtol`, `p0`, `bounds`). -/
structure CurveFitCall where
  model : ModelFn
  xdata : List ℚ
  ydata : List ℚ
  method : FitMethod
  xtol : ℚ
  p0 : Popt
  lowerBounds : List ℚ
  upperBounds : List UBound
  deriving DecidableEq, Repr

/-- An abstract solver: from the call record to the fitted `popt`, or the
`RuntimeError` raised on non-convergence.  (`pcov`, which the source
discards, is not modelled.) -/
abbrev Solver := CurveFitCall → Except FitError Popt

/-- Model of `np.linspace(start, stop, num)`: `num` evenly spaced values from `start`
to `stop` inclusive (a single-element sample is `[start]`). -/
def np_linspace (start stop : ℚ) (num : ℕ) : List ℚ :=
  if num ≤ 1 then List.ofFn (fun _ : Fin num => start)
  else List.ofFn (fun i : Fin num => start + (stop - start) * (i.1 : ℚ) / ((num : ℚ) - 1))

/-- Model of `np.quantile(a, q)` with the default linear interpolation: sort the data,
take the virtual index `q * (n - 1)`, and interpolate linearly between the
neighbouring order statistics.  (numpy's result on empty input is `nan`;
the model returns `0` there, a case the repository never reaches.) -/
def np_quantile (a : List ℚ) (q : ℚ) : ℚ :=
  let s := a.insertionSort (· ≤ ·)
  let n := s.length
  if n = 0 then 0
  else
    let pos : ℚ := q * ((n : ℚ) - 1)
    let i : ℕ := min (Int.floor pos).toNat (n - 1)
    let j : ℕ := min (i + 1) (n - 1)
    let lower := s.getD i 0
    lower + (pos - Int.floor pos) * (s.getD j 0 - lower)

/-- The keyword default `xtol = 1 / 1024` of `match_histogram` and `match_array`. -/
def default_xtol : ℚ := 1 / 1024

/-- The keyword default `samples = 2048` of `match_histogram` and `match_array`. -/
def default_samples : ℕ := 2048

/-- Model of `match_histogram` from `src/match.py`: quantiles of `x` and `y` at
`np.linspace(0, 1, samples)` scaled by `1 / 255`, then a `dogbox` bounded
least-squares fit of `level_array` with `p0 = [0, 1, 0, 1, 1]` and
`bounds = ([0, 0, 0, 0, 0], [1, 1, 1, 1, np.inf])`. -/
def match_histogram (cf : Solver) (x y : List ℚ) (xtol : ℚ) (samples : ℕ) :
    Except FitError LevelsAdjustment :=
  (cf { model := .level_array_fn,
        xdata := (np_linspace 0 1 samples).map (fun q => np_quantile x q / 255),
        ydata := (np_linspace 0 1 samples).map (fun q => np_quantile y q / 255),
        method := .dogbox, xtol := xtol, p0 := (0, 1, 0, 1, 1),
        lowerBounds := [0, 0, 0, 0, 0],
        upperBounds := [.fin 1, .fin 1, .fin 1, .fin 1, .inf] }).map adj_of_popt

/-- Model of `match_array` from `src/match.py`: seed `p0` from `match_histogram` with
`xtol = 1 / 256` when `x.size > samples`, else `[0, 1, 0, 1, 1]`; then a
`dogbox` bounded least-squares fit of `level_array` against the full pixel
data scaled by `1 / 255`, with the same bounds.  An exception from the seed
fit propagates. -/
def match_array (cf : Solver) (x y : List ℚ) (xtol : ℚ) (samples : ℕ) :
    Except FitError LevelsAdjustment :=
  match (if samples < x.length
         then (match_histogram cf x y (1 / 256) samples).map popt_of_adj
         else Except.ok (0, 1, 0, 1, 1)) with
  | .error e => .error e
  | .ok p0 =>
    (cf { model := .level_array_fn, xdata := x.map (· / 255), ydata := y.map (· / 255),
          method := .dogbox, xtol := xtol, p0 := p0,
          lowerBounds := [0, 0, 0, 0, 0],
          upperBounds := [.fin 1, .fin 1, .fin 1, .fin 1, .inf] }).map adj_of_popt

/-- A loaded PIL image as the matcher consumes it: its `(width, height)`
size and the per-channel pixel arrays that `Image.split` / `np.asarray`
expose (each flattened to one list of 8-bit values, as rationals). -/
structure PILImage where
  size : ℕ × ℕ
  bands : List (List ℚ)
  deriving DecidableEq, Repr

/-- A PIL resampling filter; `match_images` passes `Image.BICUBIC`. -/
inductive Resample
  | nearest
  | bilinear
  | bicubic
  | lanczos
  deriving DecidableEq, Repr

/-- An abstract `Image.resize`: from an image, a target size, and a
resampling filter to the resized image (PIL's resampling arithmetic is
external collaborator code). -/
abbrev ResizeFn := PILImage → ℕ × ℕ → Resample → PILImage

/-- The size-mismatch step of `match_images`: if the dimensions differ,
resize both images down to the elementwise minimum size with `Image.BICUBIC`. -/
def preprocess (resize : ResizeFn) (x y : PILImage) : PILImage × PILImage :=
  if x.size ≠ y.size then
    let new_size := (min x.size.1 y.size.1, min x.size.2 y.size.2)
    (resize x new_size Resample.bicubic, resize y new_size Resample.bicubic)
  else (x, y)

/-- The per-channel fit tasks `match_images` submits to the executor: one
task per pair of `zip(x.split(), y.split())`, running `match_array` when
`not histogram` and `match_histogram` otherwise, at the keyword defaults. -/
def channel_tasks (cf : Solver) (histogram : Bool) (x y : PILImage) :
    List (Except FitError LevelsAdjustment) :=
  let m := if !histogram
    then fun a b => match_array cf a b default_xtol default_samples
    else fun a b => match_histogram cf a b default_xtol default_samples
  (x.bands.zip y.bands).map (fun p => m p.1 p.2)

/-- The executor's completion log: the submitted tasks finish in the order
given by `order` (a sequence of task indices), each recording its own
index together with its outcome. -/
def completion_log (tasks : List α) (order : List ℕ) : List (ℕ × α) :=
  order.filterMap (fun i => (tasks.get? i).map (fun v => (i, v)))

/-- Model of `future.result()` for the future of task `i`: look the task's outcome up
in the completion log (blocking until the task has completed; an index
absent from the log models a future that never completes, which the
executor's shutdown barrier rules out). -/
def future_result (log : List (ℕ × α)) (i : ℕ) : Option α :=
  (log.find? (fun e => e.1 == i)).map (fun e => e.2)

/-- Model of `[future.result() for future in futures]` over outcomes that may carry a
raised exception: the first exception encountered propagates out of the
whole comprehension. -/
def collect_all : List (Except ε α) → Except ε (List α)
  | [] => .ok []
  | r :: rs =>
    match r with
    | .error e => .error e
    | .ok v => (collect_all rs).map (fun vs => v :: vs)

/-- Model of `match_images` from `src/match.py`: resize on dimension mismatch, submit
one fit task per zipped channel pair to the thread pool, then collect
`future.result()` in submission order.  `order` is the completion order the
scheduler happened to choose; the diagnostic `print` of each band's
parameters is observability only and is not modelled. -/
def match_images (resize : ResizeFn) (cf : Solver) (histogram : Bool)
    (x y : PILImage) (order : List ℕ) : Except FitError (List LevelsAdjustment) :=
  collect_all
    ((List.range (channel_tasks cf histogram (preprocess resize x y).1
        (preprocess resize x y).2).length).filterMap
      (future_result (completion_log (channel_tasks cf histogram (preprocess resize x y).1
        (preprocess resize x y).2) order)))

/-! Helper lemmas about the model. -/

lemma npclip_nonneg (a : ℝ) : 0 ≤ npclip a 0 1 :=
  le_min (le_max_right a 0) zero_le_one

lemma npclip_le_one (a : ℝ) : npclip a 0 1 ≤ 1 :=
  min_le_right _ _

lemma npclip_mono (lo hi : ℝ) {a b : ℝ} (h : a ≤ b) :
    npclip a lo hi ≤ npclip b lo hi :=
  min_le_min (max_le_max h le_rfl) le_rfl

/-- On a finite input with a non-degenerate input range and a positive gamma,
the numpy IEEE evaluation of `level_array` produces a finite value and agrees
with the exact real evaluation. -/
lemma level_array_fp_num (x ib iw ob ow g : ℝ) (hne : iw ≠ ib) (hg : 0 < g) :
    level_array_fp (.num x) ib iw ob ow g = .num (level_array x ib iw ob ow g) := by
  have hsub : iw - ib ≠ 0 := sub_ne_zero.mpr hne
  have hclip0 : (0 : ℝ) ≤ npclip ((x - ib) / (iw - ib)) 0 1 :=
    npclip_nonneg _
  simp only [level_array_fp, fsub, fdiv, if_neg hsub, fclip01, fpow, level_array]
  by_cases h0 : npclip ((x - ib) / (iw - ib)) 0 1 = 0
  · rw [if_pos h0, if_neg (not_lt.mpr hg.le), if_neg hg.ne', h0,
      Real.zero_rpow hg.ne']
    simp [fmul, fadd, fclip01]
  · rw [if_neg h0, if_neg (not_lt.mpr hclip0)]
    simp [fmul, fadd, fclip01]

/-- The completion log of a schedule starting with a live task index. -/
lemma completion_log_cons_some (tasks : List α) (tl : List ℕ) (j : ℕ) (w : α)
    (hj : tasks.get? j = some w) :
    completion_log tasks (j :: tl) = (j, w) :: completion_log tasks tl := by
  have hj2 : tasks[j]? = some w := by
    rw [← List.get?_eq_getElem?]
    exact hj
  simp [completion_log, hj2]

/-- The completion log of a schedule starting with a dead task index. -/
lemma completion_log_cons_none (tasks : List α) (tl : List ℕ) (j : ℕ)
    (hj : tasks.get? j = none) :
    completion_log tasks (j :: tl) = completion_log tasks tl := by
  have hj2 : tasks[j]? = none := by
    rw [← List.get?_eq_getElem?]
    exact hj
  simp [completion_log, hj2]

/-- A task index that never completes yields no result. -/
lemma future_result_none (tasks : List α) (order : List ℕ) (i : ℕ)
    (h : tasks.get? i = none) :
    future_result (completion_log tasks order) i = none := by
  induction order with
  | nil => rfl
  | cons j tl ih =>
    by_cases hji : j = i
    · subst hji
      rw [completion_log_cons_none tasks tl j h]
      exact ih
    · cases hj : tasks.get? j with
      | none =>
        rw [completion_log_cons_none tasks tl j hj]
        exact ih
      | some w =>
        rw [completion_log_cons_some tasks tl j w hj]
        show Option.map (fun e => e.2)
          (List.find? (fun e => e.1 == i) ((j, w) :: completion_log tasks tl)) = none
        rw [show List.find? (fun e : ℕ × α => e.1 == i) ((j, w) :: completion_log tasks tl) =
            List.find? (fun e => e.1 == i) (completion_log tasks tl) by
          simp [List.find?_cons, hji]]
        exact ih

/-- Each future stores its own task's outcome: whenever task `i` appears in
the completion order, `future.result()` returns exactly the value of task
`i`, wherever in the order it completed. -/
lemma future_result_mem (tasks : List α) (order : List ℕ) (i : ℕ) (v : α)
    (hmem : i ∈ order) (h : tasks.get? i = some v) :
    future_result (completion_log tasks order) i = some v := by
  induction order with
  | nil => cases hmem
  | cons j tl ih =>
    by_cases hji : j = i
    · subst hji
      rw [completion_log_cons_some tasks tl j v h]
      show Option.map (fun e => e.2)
        (List.find? (fun e => e.1 == j) ((j, v) :: completion_log tasks tl)) = some v
      rw [show List.find? (fun e : ℕ × α => e.1 == j) ((j, v) :: completion_log tasks tl) =
          some (j, v) by
        simp [List.find?_cons]]
      rfl
    · have hmem' : i ∈ tl := by
        cases List.mem_cons.mp hmem with
        | inl he => exact absurd he.symm hji
        | inr ht => exact ht
      cases hj : tasks.get? j with
      | none =>
        rw [completion_log_cons_none tasks tl j hj]
        exact ih hmem'
      | some w =>
        rw [completion_log_cons_some tasks tl j w hj]
        show Option.map (fun e => e.2)
          (List.find? (fun e => e.1 == i) ((j, w) :: completion_log tasks tl)) = some v
        rw [show List.find? (fun e : ℕ × α => e.1 == i) ((j, w) :: completion_log tasks tl) =
            List.find? (fun e => e.1 == i) (completion_log tasks tl) by
          simp [List.find?_cons, hji]]
        exact ih hmem'

/-- Collecting `future.result()` in submission order recovers the task list
itself, for any completion order that covers every task. -/
lemma collect_results_eq (tasks : List α) (order : List ℕ)
    (hcover : ∀ i, i < tasks.length → i ∈ order) :
    (List.range tasks.length).filterMap
      (future_result (completion_log tasks order)) = tasks := by
  have key : ∀ k, k ≤ tasks.length →
      (List.range k).filterMap (future_result (completion_log tasks order)) =
        tasks.take k := by
    intro k
    induction k with
    | zero => intro _; rfl
    | succ m ih =>
      intro hk
      have hm : m < tasks.length := Nat.lt_of_succ_le hk
      rw [List.range_succ, List.filterMap_append, ih (Nat.le_of_lt hm)]
      have hget : tasks.get? m = some (tasks.get ⟨m, hm⟩) := List.get?_eq_get hm
      have hget2 : tasks[m]? = some (tasks.get ⟨m, hm⟩) := by
        rw [← List.get?_eq_getElem?]
        exact hget
      rw [List.take_succ, hget2]
      have : future_result (completion_log tasks order) m =
          some (tasks.get ⟨m, hm⟩) :=
        future_result_mem tasks order m _ (hcover m hm) hget
      simp [this]
  have := key tasks.length le_rfl
  simpa [List.take_length] using this

/-- If every outcome is a success, collecting them produces the full list of
values, in order. -/
lemma collect_all_ok (l : List (Except ε α)) (h : ∀ t ∈ l, t.isOk) :
    ∃ vs, collect_all l = .ok vs ∧ l = vs.map Except.ok := by
  induction l with
  | nil => exact ⟨[], rfl, rfl⟩
  | cons r rs ih =>
    cases r with
    | error e =>
      have hok : (Except.error e : Except ε α).isOk := h _ (List.mem_cons_self _ _)
      simp [Except.isOk, Except.toBool] at hok
    | ok v =>
      obtain ⟨vs, hvs, hmap⟩ := ih (fun t ht => h t (List.mem_cons_of_mem _ ht))
      refine ⟨v :: vs, ?_, ?_⟩
      · simp [collect_all, hvs, Except.map]
      · simp [hmap]

/-- A raised exception among the outcomes aborts the whole collection. -/
lemma collect_all_error (l : List (Except ε α)) (e : ε)
    (h : Except.error e ∈ l) : ∃ e', collect_all l = .error e' := by
  induction l with
  | nil => cases h
  | cons r rs ih =>
    cases r with
    | error e0 => exact ⟨e0, rfl⟩
    | ok v =>
      have : Except.error e ∈ rs := by
        cases List.mem_cons.mp h with
        | inl he => cases he
        | inr ht => exact ht
      obtain ⟨e', he'⟩ := ih this
      exact ⟨e', by simp [collect_all, he', Except.map]⟩

/-- For at least two samples, `np.linspace(0, 1, samples)` is the list of the
evenly spaced fractions `i / (samples - 1)`. -/
lemma np_linspace_eq (samples : ℕ) (hs : 2 ≤ samples) :
    np_linspace 0 1 samples =
      List.ofFn (fun i : Fin samples => (i.1 : ℚ) / ((samples : ℚ) - 1)) := by
  unfold np_linspace
  rw [if_neg (by omega)]
  congr 1
  funext i
  ring

/-! The claims. -/

/-- C1.  For every input value `x` and parameter tuple
`(input_black, input_white, output_black, output_white, gamma)` with
`input_white ≠ input_black` (and `gamma` in its declared range `(0, ∞)`),
`level_array` returns exactly
`clip(clip((x - input_black) / (input_white - input_black), 0, 1) ** gamma
* (output_white - output_black) + output_black, 0, 1)`: the numpy
evaluation produces the finite value given by that exact real formula. -/
theorem C1_level_array_formula (x ib iw ob ow g : ℝ) (hne : iw ≠ ib) (hg : 0 < g) :
    level_array_fp (.num x) ib iw ob ow g =
      .num (npclip (npclip ((x - ib) / (iw - ib)) 0 1 ^ g * (ow - ob) + ob) 0 1) :=
  level_array_fp_num x ib iw ob ow g hne hg

/-- Witness for C1 at `x = 1/2`, parameters `(0, 1, 0, 1, 1)`. -/
theorem C1_level_array_formula_witness :
    level_array_fp (.num (1 / 2)) 0 1 0 1 1 =
      .num (npclip (npclip (((1 : ℝ) / 2 - 0) / (1 - 0)) 0 1 ^ (1 : ℝ) * (1 - 0) + 0) 0 1) :=
  C1_level_array_formula (1 / 2) 0 1 0 1 1 one_ne_zero one_pos

/-- C10.  For parameters with `input_black < input_white`,
`output_black ≤ output_white` and `gamma > 0`, the tone curve `level_array`
is monotone nondecreasing in its input. -/
theorem C10_level_array_monotone (ib iw ob ow g x1 x2 : ℝ)
    (hio : ib < iw) (hoo : ob ≤ ow) (hg : 0 < g) (hx : x1 ≤ x2) :
    level_array x1 ib iw ob ow g ≤ level_array x2 ib iw ob ow g := by
  unfold level_array
  apply npclip_mono
  have hden : (0 : ℝ) < iw - ib := sub_pos.mpr hio
  have h1 : (x1 - ib) / (iw - ib) ≤ (x2 - ib) / (iw - ib) :=
    (div_le_div_iff_of_pos_right hden).mpr (by linarith)
  have h2 : npclip ((x1 - ib) / (iw - ib)) 0 1 ≤ npclip ((x2 - ib) / (iw - ib)) 0 1 :=
    npclip_mono 0 1 h1
  have h3 : npclip ((x1 - ib) / (iw - ib)) 0 1 ^ g ≤
      npclip ((x2 - ib) / (iw - ib)) 0 1 ^ g :=
    Real.rpow_le_rpow (npclip_nonneg _) h2 hg.le
  have h4 := mul_le_mul_of_nonneg_right h3 (sub_nonneg.mpr hoo)
  exact add_le_add_right h4 ob

/-- Witness for C10 at parameters `(0, 1, 0, 1, 1)`, inputs `0 ≤ 1`. -/
theorem C10_level_array_monotone_witness :
    level_array 0 0 1 0 1 1 ≤ level_array 1 0 1 0 1 1 :=
  C10_level_array_monotone 0 1 0 1 1 0 1 one_pos zero_le_one one_pos zero_le_one

/-- C9 counterexample.  At `x = input_black = input_white = 1/2` (all
arguments inside their declared ranges), the degenerate division is
`0 / 0 = NaN`, and `np.clip` propagates NaN instead of clipping it, so
`level_array` returns NaN — not a value of `[0, 1]` at all. -/
theorem C9_nan_counterexample :
    level_array_fp (.num (1 / 2)) (1 / 2) (1 / 2) 0 1 1 = FP.nan := by
  norm_num [level_array_fp, fsub, fdiv, fclip01, fpow, fmul, fadd]

/-- C9 (amended).  For `x` in `[0, 1]` and parameters in their declared
ranges, `level_array` returns a finite value in `[0, 1]` whenever the
degenerate `0 / 0` case is avoided, i.e. unless
`input_white = input_black` and `x = input_black` simultaneously: with a
non-degenerate input range the whole pipeline is finite, and when
`input_white = input_black` but `x ≠ input_black` the division produces
`±inf`, which the first clamp does clip into `[0, 1]`.  In the remaining
`0 / 0` case the division produces NaN, which propagates through both
clamps to a NaN result (see the counterexample). -/
theorem C9_output_range_amended (x ib iw ob ow g : ℝ)
    (hx0 : 0 ≤ x) (hx1 : x ≤ 1) (hib0 : 0 ≤ ib) (hib1 : ib ≤ 1)
    (hiw0 : 0 ≤ iw) (hiw1 : iw ≤ 1) (hob0 : 0 ≤ ob) (hob1 : ob ≤ 1)
    (how0 : 0 ≤ ow) (how1 : ow ≤ 1) (hg : 0 < g)
    (hnd : ¬(iw = ib ∧ x = ib)) :
    ∃ r : ℝ, level_array_fp (.num x) ib iw ob ow g = .num r ∧ 0 ≤ r ∧ r ≤ 1 := by
  by_cases hne : iw = ib
  · have hxib : x ≠ ib := fun h => hnd ⟨hne, h⟩
    have hzero : iw - ib = 0 := by rw [hne]; ring
    have hp0 : fpow (FP.num 0) g = FP.num 0 := by
      simp [fpow, asymm hg, hg.ne']
    have hp1 : fpow (FP.num 1) g = FP.num 1 := by
      simp [fpow, Real.one_rpow, (by norm_num : ¬(1 : ℝ) < 0), (by norm_num : (1 : ℝ) ≠ 0)]
    simp only [level_array_fp, fsub, fdiv, if_pos hzero]
    rcases (sub_ne_zero.mpr hxib).lt_or_lt with hlt | hgt
    · rw [if_neg (not_lt.mpr hlt.le), if_pos hlt]
      simp only [fclip01]
      rw [hp0]
      simp only [fmul, fadd, fclip01]
      exact ⟨_, rfl, npclip_nonneg _, npclip_le_one _⟩
    · rw [if_pos hgt]
      simp only [fclip01]
      rw [hp1]
      simp only [fmul, fadd, fclip01]
      exact ⟨_, rfl, npclip_nonneg _, npclip_le_one _⟩
  · rw [level_array_fp_num x ib iw ob ow g hne hg]
    refine ⟨_, rfl, ?_, ?_⟩
    · unfold level_array
      exact npclip_nonneg _
    · unfold level_array
      exact npclip_le_one _

/-- Witness for the amended C9 at `x = 0`, parameters `(1/2, 1/2, 0, 1, 1)`:
the `inf` arising from `(-1/2) / 0` is clipped, and the result is finite
and in range. -/
theorem C9_output_range_amended_witness :
    ∃ r : ℝ, level_array_fp (.num 0) (1 / 2) (1 / 2) 0 1 1 = .num r ∧ 0 ≤ r ∧ r ≤ 1 :=
  C9_output_range_amended 0 (1 / 2) (1 / 2) 0 1 1 le_rfl zero_le_one (by norm_num)
    (by norm_num) (by norm_num) (by norm_num) le_rfl zero_le_one zero_le_one le_rfl
    one_pos (by norm_num)


/-- C2.  For all sample arrays, tolerance and sample count (at least two
samples, so that "evenly spaced inclusive of the 0 and 1 quantiles" makes
sense), `match_histogram` runs the abstract solver on exactly the spec's
problem: `samples` evenly spaced quantiles `i / (samples - 1)` of `x` and of
`y` independently, both divided by 255, the tone-curve model, `dogbox`,
initial guess `(0, 1, 0, 1, 1)`, box bounds `[0, 1]` on the four points and
`[0, ∞)` on gamma, and the given step tolerance; the quantile grid contains
the 0 and 1 quantiles, and the defaults are `xtol = 1/1024`,
`samples = 2048`. -/
theorem C2_match_histogram_spec (cf : Solver) (x y : List ℚ) (xtol : ℚ)
    (samples : ℕ) (hs : 2 ≤ samples) :
    match_histogram cf x y xtol samples =
      (cf { model := .level_array_fn,
            xdata := List.ofFn (fun i : Fin samples =>
              np_quantile x ((i.1 : ℚ) / ((samples : ℚ) - 1)) / 255),
            ydata := List.ofFn (fun i : Fin samples =>
              np_quantile y ((i.1 : ℚ) / ((samples : ℚ) - 1)) / 255),
            method := .dogbox, xtol := xtol, p0 := (0, 1, 0, 1, 1),
            lowerBounds := [0, 0, 0, 0, 0],
            upperBounds := [.fin 1, .fin 1, .fin 1, .fin 1, .inf] }).map adj_of_popt ∧
      (0 : ℚ) ∈ np_linspace 0 1 samples ∧ (1 : ℚ) ∈ np_linspace 0 1 samples ∧
      default_xtol = 1 / 1024 ∧ default_samples = 2048 := by
  have hcast : ((samples : ℚ)) - 1 ≠ 0 := by
    have : (samples : ℚ) ≠ 1 := by
      exact_mod_cast (by omega : samples ≠ 1)
    exact sub_ne_zero.mpr this
  refine ⟨?_, ?_, ?_, rfl, rfl⟩
  · unfold match_histogram
    rw [np_linspace_eq samples hs, List.map_ofFn, List.map_ofFn]
    rfl
  · rw [np_linspace_eq samples hs]
    rw [List.mem_ofFn]
    exact ⟨⟨0, by omega⟩, by simp⟩
  · rw [np_linspace_eq samples hs]
    rw [List.mem_ofFn]
    refine ⟨⟨samples - 1, by omega⟩, ?_⟩
    show ((samples - 1 : ℕ) : ℚ) / ((samples : ℚ) - 1) = 1
    rw [Nat.cast_sub (by omega : 1 ≤ samples)]
    rw [Nat.cast_one]
    exact div_self hcast

/-- Witness for C2 at `samples = 2`, empty data, the constant solver. -/
theorem C2_match_histogram_spec_witness :
    match_histogram (fun _ => .ok (0, 1, 0, 1, 1)) [] [] (1 / 1024) 2 =
      ((fun (_ : CurveFitCall) => (Except.ok (0, 1, 0, 1, 1) : Except FitError Popt))
          { model := .level_array_fn,
            xdata := List.ofFn (fun i : Fin 2 =>
              np_quantile [] ((i.1 : ℚ) / ((2 : ℚ) - 1)) / 255),
            ydata := List.ofFn (fun i : Fin 2 =>
              np_quantile [] ((i.1 : ℚ) / ((2 : ℚ) - 1)) / 255),
            method := .dogbox, xtol := 1 / 1024, p0 := (0, 1, 0, 1, 1),
            lowerBounds := [0, 0, 0, 0, 0],
            upperBounds := [.fin 1, .fin 1, .fin 1, .fin 1, .inf] }).map adj_of_popt ∧
      (0 : ℚ) ∈ np_linspace 0 1 2 ∧ (1 : ℚ) ∈ np_linspace 0 1 2 ∧
      default_xtol = 1 / 1024 ∧ default_samples = 2048 :=
  C2_match_histogram_spec (fun _ => .ok (0, 1, 0, 1, 1)) [] [] (1 / 1024) 2 (by decide)

/-- C3.  In `match_array`, the initial guess of the pixel fit is the result
of the histogram strategy on the same data with tolerance `1/256` and the
same `samples` exactly when the number of elements of `x` strictly exceeds
`samples` (a failure of that seed fit propagating), and is `(0, 1, 0, 1, 1)`
otherwise — in which case the histogram strategy is not consulted at all. -/
theorem C3_match_array_seed (cf : Solver) (x y : List ℚ) (xtol : ℚ) (samples : ℕ) :
    (samples < x.length →
      match_array cf x y xtol samples =
        (match_histogram cf x y (1 / 256) samples).bind (fun seed =>
          (cf { model := .level_array_fn, xdata := x.map (· / 255),
                ydata := y.map (· / 255), method := .dogbox, xtol := xtol,
                p0 := popt_of_adj seed,
                lowerBounds := [0, 0, 0, 0, 0],
                upperBounds := [.fin 1, .fin 1, .fin 1, .fin 1, .inf] }).map adj_of_popt))
    ∧ (¬samples < x.length →
      match_array cf x y xtol samples =
        (cf { model := .level_array_fn, xdata := x.map (· / 255),
              ydata := y.map (· / 255), method := .dogbox, xtol := xtol,
              p0 := (0, 1, 0, 1, 1),
              lowerBounds := [0, 0, 0, 0, 0],
              upperBounds := [.fin 1, .fin 1, .fin 1, .fin 1, .inf] }).map adj_of_popt) := by
  constructor
  · intro h
    unfold match_array
    rw [if_pos h]
    cases hh : match_histogram cf x y (1 / 256) samples with
    | error e => rfl
    | ok seed => rfl
  · intro h
    unfold match_array
    rw [if_neg h]

/-- Witness for C3 on a one-element array with `samples = 2048` (no seed fit)
and the constant solver. -/
theorem C3_match_array_seed_witness :
    (2048 < ([0] : List ℚ).length →
      match_array (fun _ => .ok (0, 1, 0, 1, 1)) [0] [0] (1 / 1024) 2048 =
        (match_histogram (fun _ => .ok (0, 1, 0, 1, 1)) [0] [0] (1 / 256) 2048).bind
          (fun seed =>
          ((fun (_ : CurveFitCall) => (Except.ok (0, 1, 0, 1, 1) : Except FitError Popt))
              { model := .level_array_fn, xdata := ([0] : List ℚ).map (· / 255),
                ydata := ([0] : List ℚ).map (· / 255), method := .dogbox, xtol := 1 / 1024,
                p0 := popt_of_adj seed,
                lowerBounds := [0, 0, 0, 0, 0],
                upperBounds := [.fin 1, .fin 1, .fin 1, .fin 1, .inf] }).map adj_of_popt))
    ∧ (¬2048 < ([0] : List ℚ).length →
      match_array (fun _ => .ok (0, 1, 0, 1, 1)) [0] [0] (1 / 1024) 2048 =
        ((fun (_ : CurveFitCall) => (Except.ok (0, 1, 0, 1, 1) : Except FitError Popt))
            { model := .level_array_fn, xdata := ([0] : List ℚ).map (· / 255),
              ydata := ([0] : List ℚ).map (· / 255), method := .dogbox, xtol := 1 / 1024,
              p0 := (0, 1, 0, 1, 1),
              lowerBounds := [0, 0, 0, 0, 0],
              upperBounds := [.fin 1, .fin 1, .fin 1, .fin 1, .inf] }).map adj_of_popt) :=
  C3_match_array_seed (fun _ => .ok (0, 1, 0, 1, 1)) [0] [0] (1 / 1024) 2048

/-- The claim's box bounds on a returned parameter set: the four black/white
points in `[0, 1]` and gamma in `[0, ∞)`. -/
def within_box_bounds (a : LevelsAdjustment) : Prop :=
  0 ≤ a.input_black ∧ a.input_black ≤ 1 ∧ 0 ≤ a.input_white ∧ a.input_white ≤ 1 ∧
  0 ≤ a.output_black ∧ a.output_black ≤ 1 ∧ 0 ≤ a.output_white ∧ a.output_white ≤ 1 ∧
  0 ≤ a.gamma

instance (a : LevelsAdjustment) : Decidable (within_box_bounds a) := by
  unfold within_box_bounds
  infer_instance

/-- A successful mapped solver result comes from a successful raw result. -/
lemma map_adj_ok {r : Except FitError Popt} {a : LevelsAdjustment}
    (h : r.map adj_of_popt = .ok a) : ∃ p, r = .ok p ∧ a = adj_of_popt p := by
  cases r with
  | error e => simp [Except.map] at h
  | ok p =>
    refine ⟨p, rfl, ?_⟩
    have hpa : adj_of_popt p = a := by
      simpa [Except.map] using h
    exact hpa.symm

/-- C8.  Assuming only the solver's documented contract — a successful fit
lies inside the requested box bounds, here for the bounds
`([0,0,0,0,0], [1,1,1,1,np.inf])` that both strategies request — every
parameter set returned by `match_histogram` and by `match_array` satisfies
`input_black, input_white, output_black, output_white ∈ [0,1]` and
`gamma ∈ [0,∞)`. -/
theorem C8_bounds_respected (cf : Solver)
    (hcf : ∀ call : CurveFitCall, call.lowerBounds = [0, 0, 0, 0, 0] →
      call.upperBounds = [.fin 1, .fin 1, .fin 1, .fin 1, .inf] →
      ∀ p, cf call = .ok p → within_box_bounds (adj_of_popt p))
    (x y : List ℚ) (xtol : ℚ) (samples : ℕ) (a : LevelsAdjustment) :
    (match_histogram cf x y xtol samples = .ok a → within_box_bounds a) ∧
    (match_array cf x y xtol samples = .ok a → within_box_bounds a) := by
  constructor
  · intro h
    unfold match_histogram at h
    obtain ⟨p, hp, ha⟩ := map_adj_ok h
    rw [ha]
    exact hcf _ rfl rfl p hp
  · intro h
    unfold match_array at h
    rcases hseed : (if samples < x.length
        then (match_histogram cf x y (1 / 256) samples).map popt_of_adj
        else Except.ok ((0, 1, 0, 1, 1) : Popt)) with e | p0
    · rw [hseed] at h
      simp at h
    · rw [hseed] at h
      obtain ⟨p, hp, ha⟩ := map_adj_ok h
      rw [ha]
      exact hcf _ rfl rfl p hp

/-- Witness for C8: the constant solver returning `(0, 1, 0, 1, 1)` satisfies
the bounds contract, and both strategies' results on a small input satisfy
the box bounds. -/
theorem C8_bounds_respected_witness :
    (match_histogram (fun _ => .ok (0, 1, 0, 1, 1)) [0] [0] (1 / 1024) 2048 =
        .ok ⟨0, 1, 0, 1, 1⟩ → within_box_bounds ⟨0, 1, 0, 1, 1⟩) ∧
    (match_array (fun _ => .ok (0, 1, 0, 1, 1)) [0] [0] (1 / 1024) 2048 =
        .ok ⟨0, 1, 0, 1, 1⟩ → within_box_bounds ⟨0, 1, 0, 1, 1⟩) :=
  C8_bounds_respected (fun _ => .ok (0, 1, 0, 1, 1))
    (fun _ _ _ p hp => by
      cases hp
      decide)
    [0] [0] (1 / 1024) 2048 ⟨0, 1, 0, 1, 1⟩

/-- Decidable equality of `Except` outcomes, for concrete evaluation. -/
def exceptDecEq {ε : Type u} {α : Type v} [DecidableEq ε] [DecidableEq α] :
    (a b : Except ε α) → Decidable (a = b)
  | .error e, .error f =>
      if h : e = f then .isTrue (congrArg Except.error h)
      else .isFalse (fun hh => h (Except.error.inj hh))
  | .error _, .ok _ => .isFalse (fun hh => Except.noConfusion hh)
  | .ok _, .error _ => .isFalse (fun hh => Except.noConfusion hh)
  | .ok v, .ok w =>
      if h : v = w then .isTrue (congrArg Except.ok h)
      else .isFalse (fun hh => h (Except.ok.inj hh))

instance {ε : Type u} {α : Type v} [DecidableEq ε] [DecidableEq α] :
    DecidableEq (Except ε α) := exceptDecEq

/-! Concrete instances used by the witnesses below. -/

/-- A resize stub satisfying PIL's contract that the result has the target
size. -/
def resize_id : ResizeFn := fun img s _ => { size := s, bands := img.bands }

/-- A solver that always converges to `(0, 1, 0, 1, 1)`. -/
def solver_const : Solver := fun _ => .ok (0, 1, 0, 1, 1)

/-- A solver that never converges. -/
def solver_fail : Solver := fun _ => .error .runtimeError

/-- A one-band 1×1 image. -/
def img_a : PILImage := { size := (1, 1), bands := [[0]] }

/-- A two-band 1×1 image. -/
def img_2band : PILImage := { size := (1, 1), bands := [[0], [128]] }

/-- A three-band 1×1 image. -/
def img_3band : PILImage := { size := (1, 1), bands := [[0], [64], [128]] }

/-- A four-band 1×1 image. -/
def img_4band : PILImage := { size := (1, 1), bands := [[0], [64], [128], [255]] }

/-- A 1×2 one-band image. -/
def img_c : PILImage := { size := (1, 2), bands := [[0, 255]] }

/-- A 2×1 one-band image. -/
def img_d : PILImage := { size := (2, 1), bands := [[255, 0]] }

/-- C4.  For any completion order that covers the submitted tasks, if the
solver fails to converge on any channel, `match_images` propagates that
`RuntimeError` and returns no result at all: the outcome is the error, not a
partial or defaulted parameter list. -/
theorem C4_fit_failure_aborts (resize : ResizeFn) (cf : Solver) (histogram : Bool)
    (x y : PILImage) (order : List ℕ)
    (horder : order.Perm (List.range (channel_tasks cf histogram
        (preprocess resize x y).1 (preprocess resize x y).2).length))
    (hfail : Except.error FitError.runtimeError ∈ channel_tasks cf histogram
        (preprocess resize x y).1 (preprocess resize x y).2) :
    match_images resize cf histogram x y order = .error FitError.runtimeError := by
  have hcover : ∀ i, i < (channel_tasks cf histogram
      (preprocess resize x y).1 (preprocess resize x y).2).length → i ∈ order :=
    fun i hi => horder.mem_iff.mpr (List.mem_range.mpr hi)
  unfold match_images
  rw [collect_results_eq _ _ hcover]
  obtain ⟨e', he'⟩ := collect_all_error _ _ hfail
  cases e'
  exact he'

/-- Witness for C4: a single channel whose fit raises. -/
theorem C4_fit_failure_aborts_witness :
    match_images resize_id solver_fail false img_a img_a [0] =
      .error FitError.runtimeError :=
  C4_fit_failure_aborts resize_id solver_fail false img_a img_a [0]
    (by decide) (by decide)

/-- C5 counterexample.  A 3-band and a 4-band image of equal pixel size: no
invalid-input error is signaled — `match_images` silently zips the channel
lists, runs three fits and returns three results. -/
theorem C5_no_channel_check_counterexample :
    match_images resize_id solver_const false img_3band img_4band [0, 1, 2] =
      .ok [⟨0, 1, 0, 1, 1⟩, ⟨0, 1, 0, 1, 1⟩, ⟨0, 1, 0, 1, 1⟩] := by
  decide

/-- C5 (amended).  `match_images` performs no channel-count validation at
all: for images of equal pixel size whose channel counts differ, the channel
lists are zipped — silently truncating to the shorter count — and fitting
proceeds on those pairs; when every fit succeeds the call returns a result
list of the truncated length instead of signaling an invalid-input error. -/
theorem C5_truncating_zip_amended (resize : ResizeFn) (cf : Solver) (histogram : Bool)
    (x y : PILImage) (order : List ℕ)
    (hsize : x.size = y.size)
    (horder : order.Perm (List.range (min x.bands.length y.bands.length)))
    (hok : ∀ t ∈ channel_tasks cf histogram x y, t.isOk) :
    ∃ rs, match_images resize cf histogram x y order = .ok rs ∧
      rs.length = min x.bands.length y.bands.length := by
  have hpre : preprocess resize x y = (x, y) := by
    unfold preprocess
    rw [if_neg (by simp [hsize])]
  have hlen : (channel_tasks cf histogram x y).length =
      min x.bands.length y.bands.length := by
    unfold channel_tasks
    rw [List.length_map, List.length_zip]
  have hcover : ∀ i, i < (channel_tasks cf histogram
      (preprocess resize x y).1 (preprocess resize x y).2).length → i ∈ order := by
    rw [hpre]
    intro i hi
    exact horder.mem_iff.mpr (List.mem_range.mpr (hlen ▸ hi))
  obtain ⟨vs, hvs, hmap⟩ := collect_all_ok _ hok
  refine ⟨vs, ?_, ?_⟩
  · unfold match_images
    rw [collect_results_eq _ _ hcover, hpre]
    exact hvs
  · have hl2 := congrArg List.length hmap
    rw [List.length_map] at hl2
    rw [← hl2]
    exact hlen

/-- Witness for the amended C5 at the counterexample's images. -/
theorem C5_truncating_zip_amended_witness :
    ∃ rs, match_images resize_id solver_const false img_3band img_4band [0, 1, 2] =
        .ok rs ∧
      rs.length = min img_3band.bands.length img_4band.bands.length :=
  C5_truncating_zip_amended resize_id solver_const false img_3band img_4band [0, 1, 2]
    rfl (by decide) (by decide)

/-- C6.  When the two images differ in pixel dimensions, `match_images` does
not raise: it resizes both down to the elementwise minimum of the two widths
and heights with bicubic resampling and completes exactly as it would on the
resized pair (`resize` is only assumed to honour the requested size). -/
theorem C6_resize_fallback (resize : ResizeFn) (cf : Solver) (histogram : Bool)
    (x y : PILImage) (order : List ℕ)
    (hresize : ∀ img s r, (resize img s r).size = s)
    (hne : x.size ≠ y.size) :
    match_images resize cf histogram x y order =
      match_images resize cf histogram
        (resize x (min x.size.1 y.size.1, min x.size.2 y.size.2) Resample.bicubic)
        (resize y (min x.size.1 y.size.1, min x.size.2 y.size.2) Resample.bicubic)
        order := by
  have h1 : preprocess resize x y =
      (resize x (min x.size.1 y.size.1, min x.size.2 y.size.2) Resample.bicubic,
       resize y (min x.size.1 y.size.1, min x.size.2 y.size.2) Resample.bicubic) := by
    unfold preprocess
    rw [if_pos hne]
  have h2 : preprocess resize
      (resize x (min x.size.1 y.size.1, min x.size.2 y.size.2) Resample.bicubic)
      (resize y (min x.size.1 y.size.1, min x.size.2 y.size.2) Resample.bicubic) =
      (resize x (min x.size.1 y.size.1, min x.size.2 y.size.2) Resample.bicubic,
       resize y (min x.size.1 y.size.1, min x.size.2 y.size.2) Resample.bicubic) := by
    unfold preprocess
    rw [if_neg]
    simp [hresize]
  unfold match_images
  rw [h1, h2]

/-- Witness for C6 on a 1×2 and a 2×1 image. -/
theorem C6_resize_fallback_witness :
    match_images resize_id solver_const false img_c img_d [0] =
      match_images resize_id solver_const false
        (resize_id img_c (min img_c.size.1 img_d.size.1, min img_c.size.2 img_d.size.2)
          Resample.bicubic)
        (resize_id img_d (min img_c.size.1 img_d.size.1, min img_c.size.2 img_d.size.2)
          Resample.bicubic)
        [0] :=
  C6_resize_fallback resize_id solver_const false img_c img_d [0]
    (fun _ _ _ => rfl) (by decide)

/-- C7.  For same-size images with `n` channels each and any completion
order (any permutation of the task indices), when every per-channel fit
succeeds `match_images` returns exactly `n` parameter sets, and its `i`-th
element is the fit of the `i`-th channel pair of the inputs — the full-pixel
strategy by default, the histogram strategy when requested — independent of
the order in which the per-channel tasks completed. -/
theorem C7_channel_order (resize : ResizeFn) (cf : Solver) (histogram : Bool)
    (x y : PILImage) (order : List ℕ) (n : ℕ)
    (hsize : x.size = y.size) (hx : x.bands.length = n) (hy : y.bands.length = n)
    (horder : order.Perm (List.range n))
    (hok : ∀ t ∈ channel_tasks cf histogram x y, t.isOk) :
    ∃ rs, match_images resize cf histogram x y order = .ok rs ∧ rs.length = n ∧
      ∀ i, i < n → ∃ r, rs.get? i = some r ∧
        (if histogram
         then match_histogram cf (x.bands.getD i []) (y.bands.getD i [])
                default_xtol default_samples
         else match_array cf (x.bands.getD i []) (y.bands.getD i [])
                default_xtol default_samples) = .ok r := by
  have hpre : preprocess resize x y = (x, y) := by
    unfold preprocess
    rw [if_neg (by simp [hsize])]
  have hlen : (channel_tasks cf histogram x y).length = n := by
    unfold channel_tasks
    rw [List.length_map, List.length_zip, hx, hy, min_self]
  have hcover : ∀ i, i < (channel_tasks cf histogram
      (preprocess resize x y).1 (preprocess resize x y).2).length → i ∈ order := by
    rw [hpre]
    intro i hi
    exact horder.mem_iff.mpr (List.mem_range.mpr (hlen ▸ hi))
  obtain ⟨vs, hvs, hmap⟩ := collect_all_ok _ hok
  have hvslen : vs.length = n := by
    have hl2 := congrArg List.length hmap
    rw [List.length_map] at hl2
    rw [← hl2]
    exact hlen
  refine ⟨vs, ?_, hvslen, ?_⟩
  · unfold match_images
    rw [collect_results_eq _ _ hcover, hpre]
    exact hvs
  · intro i hi
    have hxi : x.bands.get? i = some (x.bands.getD i []) := by
      have hi2 : i < x.bands.length := by rw [hx]; exact hi
      simp [List.getD_eq_get?, List.getElem?_eq_getElem hi2]
    have hyi : y.bands.get? i = some (y.bands.getD i []) := by
      have hi2 : i < y.bands.length := by rw [hy]; exact hi
      simp [List.getD_eq_get?, List.getElem?_eq_getElem hi2]
    have hzip : (x.bands.zip y.bands).get? i =
        some (x.bands.getD i [], y.bands.getD i []) := by
      rw [List.get?_zip_eq_some]
      exact ⟨hxi, hyi⟩
    have hti : (channel_tasks cf histogram x y).get? i = some
        (if histogram
         then match_histogram cf (x.bands.getD i []) (y.bands.getD i [])
                default_xtol default_samples
         else match_array cf (x.bands.getD i []) (y.bands.getD i [])
                default_xtol default_samples) := by
      unfold channel_tasks
      rw [List.get?_map, hzip]
      cases histogram <;> rfl
    rw [hmap, List.get?_map] at hti
    cases hvi : vs.get? i with
    | none =>
      rw [hvi] at hti
      cases hti
    | some r =>
      rw [hvi] at hti
      refine ⟨r, rfl, ?_⟩
      exact (Option.some.inj hti).symm

/-- Witness for C7: two channels, completion order `[1, 0]` reversed from
submission order. -/
theorem C7_channel_order_witness :
    ∃ rs, match_images resize_id solver_const false img_2band img_2band [1, 0] =
        .ok rs ∧ rs.length = 2 ∧
      ∀ i, i < 2 → ∃ r, rs.get? i = some r ∧
        (if false
         then match_histogram solver_const (img_2band.bands.getD i [])
                (img_2band.bands.getD i []) default_xtol default_samples
         else match_array solver_const (img_2band.bands.getD i [])
                (img_2band.bands.getD i []) default_xtol default_samples) = .ok r :=
  C7_channel_order resize_id solver_const false img_2band img_2band [1, 0] 2
    rfl rfl rfl (by decide) (by decide)

end ImageUtils
